import Mathlib

/-!
Verification development for the rjq interactive JSON query session engine.

Shallow embedding of the core components:
- JSON values and the pretty printer (serde_json::to_string_pretty, 2-space indent);
- the query executors (src/query/executor.rs, src/query/mod.rs), with the external
  jaq compile/run collaborator abstracted as a `JaqRuntime` parameter
  (the spec treats it as an opaque capability);
- the caching decorator (src/query/cached_executor.rs, src/query/cache.rs), with the
  DefaultHasher-based cache key abstracted as a deterministic function parameter;
- the query history ranking engine (src/history/mod.rs), with the f64 exponential
  time decay abstracted as a rational-valued parameter and HashMap iteration
  determinized as a list in insertion order;
- the session state machine (src/app/state.rs, src/app/mod.rs, src/app/builder.rs,
  src/ui/events.rs).

Machine integers (usize) are modelled as Nat; Rust saturating_sub is Nat subtraction.
Timestamps (SystemTime) are modelled as Nat seconds.
-/

/-- JSON value, mirroring serde_json::Value. Numbers are modelled as Int
(serde's f64 payloads are out of scope; no claim depends on numeric formatting).
Objects are ordered field lists. -/
inductive Value where
  | null
  | bool (b : Bool)
  | num (n : Int)
  | str (s : String)
  | arr (items : List Value)
  | obj (fields : List (String × Value))
deriving Repr

/-- Indentation: n levels of two spaces, as serde_json's pretty formatter emits. -/
def indentStr (n : Nat) : String := String.join (List.replicate n "  ")

/-- Escape one character for a JSON string literal (quote, backslash and the
common control characters; serde additionally \u-escapes other control
characters, which no claim depends on). -/
def escapeChar (c : Char) : String :=
  if c = '"' then "\\\""
  else if c = '\\' then "\\\\"
  else if c = '\n' then "\\n"
  else if c = '\t' then "\\t"
  else if c = '\r' then "\\r"
  else String.singleton c

/-- A JSON string literal with quotes, as serde_json emits it. -/
def jsonEscape (s : String) : String :=
  "\"" ++ String.join (s.toList.map escapeChar) ++ "\""

mutual

/-- serde_json::to_string_pretty at indentation level ind. -/
def prettyVal (ind : Nat) : Value → String
  | .null => "null"
  | .bool true => "true"
  | .bool false => "false"
  | .num n => toString n
  | .str s => jsonEscape s
  | .arr [] => "[]"
  | .arr (v :: vs) =>
      "[\n" ++ prettyElems (ind + 1) v vs ++ "\n" ++ indentStr ind ++ "]"
  | .obj [] => "\x7b\x7d"
  | .obj ((k, v) :: fs) =>
      "\x7b\n" ++ prettyFields (ind + 1) k v fs ++ "\n" ++ indentStr ind ++ "\x7d"
termination_by v => sizeOf v

/-- Comma-and-newline separated array elements, each indented. -/
def prettyElems (ind : Nat) (v : Value) : List Value → String
  | [] => indentStr ind ++ prettyVal ind v
  | w :: ws => indentStr ind ++ prettyVal ind v ++ ",\n" ++ prettyElems ind w ws
termination_by ws => sizeOf v + sizeOf ws

/-- Comma-and-newline separated object fields, each indented. -/
def prettyFields (ind : Nat) (k : String) (v : Value) : List (String × Value) → String
  | [] => indentStr ind ++ jsonEscape k ++ ": " ++ prettyVal ind v
  | (k2, v2) :: gs => indentStr ind ++ jsonEscape k ++ ": " ++ prettyVal ind v ++ ",\n"
      ++ prettyFields ind k2 v2 gs
termination_by gs => sizeOf v + sizeOf gs

end

/-- Top-level pretty printing: serde_json::to_string_pretty. -/
def toStringPretty (v : Value) : String := prettyVal 0 v

/-- src/app/error.rs AppError. The serde_json::Error and std::io::Error payloads
are modelled by their display strings. -/
inductive AppError where
  | jsonParse (msg : String)
  | queryCompile (msg : String)
  | queryExecution (msg : String)
  | terminal (msg : String)
deriving Repr, DecidableEq

/-- The external jaq collaborator, which the spec treats as an opaque
capability: compile query text (loader + compiler stages merged; an error
carries the formatted message) and run the compiled filter on a value,
yielding a stream of per-result successes or evaluation errors
(jaq_core filter.run yields an iterator of Result). -/
structure JaqRuntime where
  compile : String → Except String Unit
  run : String → Value → List (Except String Value)

/-- src/query/executor.rs JaqQueryExecutor::execute. Empty query and
compile failures are QueryCompile errors; the run results are collected with
filter_map over Result::ok, dropping per-result evaluation errors. -/
def JaqQueryExecutor.execute (rt : JaqRuntime) (data : Value) (query : String) :
    Except AppError (List Value) :=
  if query.isEmpty then
    .error (.queryCompile "Empty query")
  else
    match rt.compile query with
    | .error e => .error (.queryCompile e)
    | .ok _ => .ok ((rt.run query data).filterMap Except.toOption)

/-- src/query/mod.rs QueryResult. -/
inductive QueryResult where
  | single (v : Value)
  | multiple (vs : List Value)
  | empty
deriving Repr

/-- src/query/mod.rs QueryResult::format_pretty. serde_json::to_string_pretty
of a Vec<Value> serializes it as a JSON array; in this total model the
"Error formatting result" fallback branch is unreachable. -/
def QueryResult.format_pretty : QueryResult → String
  | .single v => toStringPretty v
  | .multiple vs => toStringPretty (.arr vs)
  | .empty => "null"

/-- src/query/mod.rs JsonData::execute_query: same pipeline as
JaqQueryExecutor::execute, then classifies the collected values by count. -/
def JsonData.execute_query (rt : JaqRuntime) (inner : Value) (query : String) :
    Except AppError QueryResult :=
  if query.isEmpty then
    .error (.queryCompile "Empty query")
  else
    match rt.compile query with
    | .error e => .error (.queryCompile e)
    | .ok _ =>
      let values := (rt.run query inner).filterMap Except.toOption
      .ok (match values with
        | [] => .empty
        | [v] => .single v
        | vs => .multiple vs)

/-- src/query/cache.rs InMemoryQueryCache: a HashMap from key to result list,
modelled as an association list in insertion order. -/
abbrev Cache := List (String × List Value)

/-- InMemoryQueryCache::get (HashMap::get + clone). -/
def cacheGet (c : Cache) (k : String) : Option (List Value) :=
  (c.find? (fun p => p.1 == k)).map (·.2)

/-- InMemoryQueryCache::set (HashMap::insert: replace the entry for an
existing key, otherwise add one). -/
def cacheSet (c : Cache) (k : String) (v : List Value) : Cache :=
  if c.any (fun p => p.1 == k) then
    c.map (fun p => if p.1 == k then (k, v) else p)
  else
    c ++ [(k, v)]

/-- Outcome of one decorated execute call: the returned Result, the cache
after the call, and how many times the wrapped executor was invoked during
the call (the spy observation the spec's caching property is stated with). -/
structure ExecOutcome where
  result : Except AppError (List Value)
  cache : Cache
  innerCalls : Nat
deriving Repr

/-- src/query/cached_executor.rs CachedQueryExecutor::execute.
ck abstracts CachedQueryExecutor::cache_key (a deterministic DefaultHasher
digest of data.to_string() and the query text); inner abstracts the wrapped
executor. On a hit the stored sequence is returned without invoking inner;
on a miss inner runs, an error propagates with nothing stored, and a success
is stored then returned. -/
def CachedQueryExecutor.execute (ck : Value → String → String)
    (inner : Value → String → Except AppError (List Value))
    (cache : Cache) (data : Value) (query : String) : ExecOutcome :=
  let key := ck data query
  match cacheGet cache key with
  | some cached => ⟨.ok cached, cache, 0⟩
  | none =>
    match inner data query with
    | .error e => ⟨.error e, cache, 1⟩
    | .ok r => ⟨.ok r, cacheSet cache key r, 1⟩

/-- Rust query.trim().is_empty(): true exactly when every character is
whitespace (String::trim strips leading and trailing whitespace, and the
remainder is empty iff no non-whitespace character exists; Char.isWhitespace
covers the ASCII whitespace of the queries in scope). -/
def isBlank (s : String) : Bool := s.toList.all Char.isWhitespace

/-- src/history/mod.rs QueryEntry. Timestamps are Nat seconds. -/
structure QueryEntry where
  query : String
  count : Nat
  last_used : Nat
  first_used : Nat
deriving Repr, DecidableEq

/-- src/history/mod.rs SuggestionItem. Scores are modelled in Rat. -/
structure SuggestionItem where
  text : String
  score : Rat
deriving Repr, DecidableEq

/-- src/history/mod.rs QueryHistory. The HashMap<String, QueryEntry> is
modelled as a list of entries in insertion order, keyed by QueryEntry.query
(HashMap iteration order is unspecified in the source; the spec leaves
score ties iteration-order-dependent). -/
structure QueryHistory where
  entries : List QueryEntry
  max_entries : Nat
  recent_weight : Rat
deriving Repr

/-- QueryHistory::new. -/
def QueryHistory.new (max_entries : Nat) : QueryHistory :=
  ⟨[], max_entries, 1 / 2⟩

/-- QueryHistory::calculate_score. td abstracts the f64 exponential
calculate_time_decay, td e standing for exp(-e / 86400.0) at elapsed
seconds e; elapsed = duration_since(last_used).unwrap_or_default() is
saturating Nat subtraction. -/
def QueryHistory.calculate_score (td : Nat → Rat) (now : Nat) (h : QueryHistory)
    (e : QueryEntry) : Rat :=
  (e.count : Rat) * (1 - h.recent_weight) + td (now - e.last_used) * h.recent_weight

/-- QueryHistory::cleanup_old_entries: when over capacity, sort
(query, score) pairs ascending by score and remove the first
(len - max_entries) keys from the map. -/
def QueryHistory.cleanup_old_entries (td : Nat → Rat) (now : Nat)
    (h : QueryHistory) : QueryHistory :=
  if h.entries.length ≤ h.max_entries then h
  else
    let sorted := (h.entries.map (fun e => (e.query, h.calculate_score td now e))).mergeSort
      (fun a b => a.2 ≤ b.2)
    let remove_count := h.entries.length - h.max_entries
    { h with entries := ((sorted.take remove_count).foldl
        (fun es p => es.eraseP (fun e => e.query == p.1)) h.entries) }

/-- QueryHistory::record_query: blank or whitespace-only text is ignored;
an existing entry gets count + 1 and last_used = now (in place); otherwise
a fresh entry is inserted with count = 1 and first_used = last_used = now;
then cleanup_old_entries runs. -/
def QueryHistory.record_query (td : Nat → Rat) (now : Nat) (h : QueryHistory)
    (query : String) : QueryHistory :=
  if isBlank query then h
  else
    let h2 : QueryHistory :=
      if h.entries.any (fun e => e.query == query) then
        { h with entries := (h.entries.map (fun e =>
            if e.query == query then { e with count := e.count + 1, last_used := now } else e)) }
      else
        { h with entries := (h.entries ++ [⟨query, 1, now, now⟩]) }
    h2.cleanup_old_entries td now

/-- QueryHistory::get_suggestions: guard on the prefix byte length
(Rust str::len is UTF-8 byte length), filter entries whose text starts
with the prefix (str::starts_with, a byte prefix, which on valid UTF-8
strings is exactly a character-sequence prefix) and differs from it,
score them, sort descending by score (sort_by with reversed partial_cmp),
truncate to limit. -/
def QueryHistory.get_suggestions (td : Nat → Rat) (now : Nat) (h : QueryHistory)
    (pfx : String) (limit : Nat) : List SuggestionItem :=
  if pfx.utf8ByteSize < 2 then []
  else
    let candidates := (h.entries.filter
        (fun e => pfx.toList.isPrefixOf e.query.toList && e.query != pfx)).map
      (fun e => SuggestionItem.mk e.query (h.calculate_score td now e))
    ((candidates.mergeSort (fun a b => b.score ≤ a.score)).take limit)

/-- src/app/state.rs AppState, together with the query_history field that
src/app/mod.rs accesses through state.query_history. -/
structure AppState where
  input : String
  exit : Bool
  last_error : Option AppError
  scroll_offset : Nat
  query_history : QueryHistory

/-- AppState::default / AppState::new. -/
def AppState.default : AppState :=
  ⟨"", false, none, 0, QueryHistory.new 100⟩

/-- AppState::clear_input: clears the input and the last error. -/
def AppState.clear_input (s : AppState) : AppState :=
  { s with input := "", last_error := none }

/-- AppState::push_char. -/
def AppState.push_char (s : AppState) (c : Char) : AppState :=
  { s with input := s.input.push c }

/-- AppState::pop_char (String::pop removes the last character if any). -/
def AppState.pop_char (s : AppState) : AppState :=
  { s with input := s.input.dropRight 1 }

/-- AppState::set_exit. -/
def AppState.set_exit (s : AppState) (e : Bool) : AppState :=
  { s with exit := e }

/-- AppState::set_error. -/
def AppState.set_error (s : AppState) (e : AppError) : AppState :=
  { s with last_error := some e }

/-- AppState::scroll_up: decrement floored at 0. -/
def AppState.scroll_up (s : AppState) : AppState :=
  if s.scroll_offset > 0 then { s with scroll_offset := s.scroll_offset - 1 } else s

/-- AppState::scroll_down_bounded: max_scroll = total_lines.saturating_sub
(visible_height); increment only while strictly below it. -/
def AppState.scroll_down_bounded (s : AppState) (total_lines visible_height : Nat) :
    AppState :=
  let max_scroll := total_lines - visible_height
  if s.scroll_offset < max_scroll then { s with scroll_offset := s.scroll_offset + 1 } else s

/-- AppState::reset_scroll. -/
def AppState.reset_scroll (s : AppState) : AppState :=
  { s with scroll_offset := 0 }

/-- src/app/config.rs AppConfig. -/
structure AppConfig where
  prompt : String
  visible_height : Nat

/-- AppConfig::default. -/
def AppConfig.default : AppConfig :=
  ⟨"query > ", 20⟩

/-- src/app/mod.rs App: config, state and the loaded JsonData value. -/
structure App where
  config : AppConfig
  state : AppState
  data : Value

/-- App::new. -/
def App.new (json_value : Value) : App :=
  ⟨AppConfig.default, AppState.default, json_value⟩

/-- App::execute_current_query: delegates to JsonData::execute_query on the
current input. -/
def App.execute_current_query (rt : JaqRuntime) (app : App) :
    Except AppError QueryResult :=
  JsonData.execute_query rt app.data app.state.input

/-- src/app/mod.rs App::generate_current_content (ContentGenerator impl):
format a successful result; on failure fall back to the full pretty-printed
document when the input is empty, and to the empty string otherwise. -/
def App.generate_current_content (rt : JaqRuntime) (app : App) : String :=
  match app.execute_current_query rt with
  | .ok result => result.format_pretty
  | .error _ =>
    if app.state.input.isEmpty then toStringPretty app.data
    else ""

/-- Rust str::lines() line count: \n-separated segments, a trailing newline
not contributing an extra empty line, the empty string having zero lines. -/
def rustLinesCount (s : String) : Nat :=
  if s.isEmpty then 0
  else ((s.dropRight (if s.endsWith "\n" then 1 else 0)).splitOn "\n").length

/-- App::get_total_lines. -/
def App.get_total_lines (rt : JaqRuntime) (app : App) : Nat :=
  rustLinesCount (app.generate_current_content rt)

/-- App::get_best_suggestion: at least 2 bytes of input, then the top
suggestion from the history. -/
def App.get_best_suggestion (td : Nat → Rat) (now : Nat) (app : App) :
    Option String :=
  if app.state.input.utf8ByteSize < 2 then none
  else
    (app.state.query_history.get_suggestions td now app.state.input 1).head?.map
      (·.text)

/-- App::record_query. -/
def App.record_query (td : Nat → Rat) (now : Nat) (app : App) (query : String) :
    App :=
  { app with state := { app.state with
      query_history := app.state.query_history.record_query td now query } }

/-- src/ui/events.rs Action (named UiAction here to avoid clashing with a
Mathlib declaration). -/
inductive UiAction where
  | quit
  | input (c : Char)
  | backspace
  | clear
  | scrollUp
  | scrollDown
  | tab
  | none
deriving Repr, DecidableEq

/-- Lift an AppState mutation to App (the App methods delegate to state). -/
def App.mapState (app : App) (f : AppState → AppState) : App :=
  { app with state := f app.state }

/-- App::scroll_down: bounds the offset by the current content's line count
and the configured visible height. -/
def App.scroll_down (rt : JaqRuntime) (app : App) : App :=
  app.mapState (fun s => s.scroll_down_bounded (app.get_total_lines rt)
    app.config.visible_height)

/-- src/ui/events.rs update: dispatch one Action against the App.
The Clear arm records the input into the history (when its trim is
non-empty) before clearing input and scroll; Tab applies the best
suggestion when one exists. -/
def update (rt : JaqRuntime) (td : Nat → Rat) (now : Nat) (app : App)
    (action : UiAction) : App :=
  match action with
  | .quit => app.mapState (fun s => s.set_exit true)
  | .input c => app.mapState (fun s => (s.push_char c).reset_scroll)
  | .backspace =>
      app.mapState (fun s =>
        (if s.input.isEmpty then s else s.pop_char).reset_scroll)
  | .clear =>
      let app2 :=
        if isBlank app.state.input then app
        else app.record_query td now app.state.input
      app2.mapState (fun s => s.clear_input.reset_scroll)
  | .scrollUp => app.mapState AppState.scroll_up
  | .scrollDown => app.scroll_down rt
  | .tab =>
      match app.get_best_suggestion td now with
      | some suggestion => app.mapState (fun s => { s with input := suggestion })
      | Option.none => app
  | .none => app

/-- src/app/builder.rs EnhancedApp: config, state, data; the injected
query_executor is passed to the methods that use it as the function
exec, and the event handler collaborator is out of scope. -/
structure EnhancedApp where
  config : AppConfig
  state : AppState
  data : Value

/-- AppBuilder::build with AppState::default. -/
def EnhancedApp.build (json_value : Value) (config : AppConfig) : EnhancedApp :=
  ⟨config, AppState.default, json_value⟩

/-- EnhancedApp::execute_current_query: empty input is rejected up front,
then the injected executor's value list is classified by count. -/
def EnhancedApp.execute_current_query
    (exec : Value → String → Except AppError (List Value)) (app : EnhancedApp) :
    Except AppError QueryResult :=
  if app.state.input.isEmpty then
    .error (.queryCompile "Empty query")
  else
    match exec app.data app.state.input with
    | .error e => .error e
    | .ok results =>
      .ok (match results with
        | [] => .empty
        | [v] => .single v
        | vs => .multiple vs)

/-- EnhancedApp::generate_current_content (ContentGenerator impl). -/
def EnhancedApp.generate_current_content
    (exec : Value → String → Except AppError (List Value)) (app : EnhancedApp) :
    String :=
  match app.execute_current_query exec with
  | .ok result => result.format_pretty
  | .error _ =>
    if app.state.input.isEmpty then toStringPretty app.data
    else ""

/-- EnhancedApp::get_total_lines. -/
def EnhancedApp.get_total_lines
    (exec : Value → String → Except AppError (List Value)) (app : EnhancedApp) :
    Nat :=
  rustLinesCount (app.generate_current_content exec)

/-- Lift an AppState mutation to EnhancedApp. -/
def EnhancedApp.mapState (app : EnhancedApp) (f : AppState → AppState) :
    EnhancedApp :=
  { app with state := f app.state }

/-- EnhancedApp::scroll_down. -/
def EnhancedApp.scroll_down
    (exec : Value → String → Except AppError (List Value)) (app : EnhancedApp) :
    EnhancedApp :=
  app.mapState (fun s => s.scroll_down_bounded (app.get_total_lines exec)
    app.config.visible_height)

/-- src/app/builder.rs EnhancedApp::update_with_action. Unlike
src/ui/events.rs update, the Clear arm only clears input and scroll and
never touches the history; the source match has no Tab arm (Tab is modelled
as no state change, like None). -/
def EnhancedApp.update_with_action
    (exec : Value → String → Except AppError (List Value)) (app : EnhancedApp)
    (action : UiAction) : EnhancedApp :=
  match action with
  | .quit => app.mapState (fun s => s.set_exit true)
  | .input c => app.mapState (fun s => (s.push_char c).reset_scroll)
  | .backspace =>
      app.mapState (fun s =>
        (if s.input.isEmpty then s else s.pop_char).reset_scroll)
  | .clear => app.mapState (fun s => s.clear_input.reset_scroll)
  | .scrollUp => app.mapState AppState.scroll_up
  | .scrollDown => app.scroll_down exec
  | .tab => app
  | .none => app

/-- A scroll step: the two scroll Actions of the session state machine. -/
inductive ScrollOp where
  | up
  | down
deriving Repr, DecidableEq

/-- Apply a sequence of scroll actions at fixed (total_lines, visible_height),
as the event loop does while the rendered content is unchanged. -/
def applyScrollOps (total visible : Nat) (s : AppState) : List ScrollOp → AppState
  | [] => s
  | .up :: ops => applyScrollOps total visible s.scroll_up ops
  | .down :: ops => applyScrollOps total visible (s.scroll_down_bounded total visible) ops

/-- Record the same query text n times at one timestamp. -/
def recordRepeated (td : Nat → Rat) (now : Nat) (q : String) (h : QueryHistory) :
    Nat → QueryHistory
  | 0 => h
  | n + 1 => (recordRepeated td now q h n).record_query td now q

/-- Record a list of query texts in order. -/
def recordAll (td : Nat → Rat) (now : Nat) (h : QueryHistory) (qs : List String) :
    QueryHistory :=
  qs.foldl (fun acc x => acc.record_query td now x) h

/-! ## Scroll bounds (C4) -/

lemma scroll_up_offset (s : AppState) :
    s.scroll_up.scroll_offset = s.scroll_offset - 1 := by
  unfold AppState.scroll_up
  split_ifs with h
  · rfl
  · omega

lemma scroll_down_bounded_offset (s : AppState) (t v : Nat) :
    (s.scroll_down_bounded t v).scroll_offset =
      if s.scroll_offset < t - v then s.scroll_offset + 1 else s.scroll_offset := by
  unfold AppState.scroll_down_bounded
  dsimp only
  split_ifs with h2 <;> simp

lemma scroll_down_bounded_le (s : AppState) (t v : Nat)
    (h : s.scroll_offset ≤ t - v) :
    (s.scroll_down_bounded t v).scroll_offset ≤ t - v := by
  rw [scroll_down_bounded_offset]
  split_ifs with h2 <;> omega

lemma applyScrollOps_le (t v : Nat) :
    ∀ (ops : List ScrollOp) (s : AppState), s.scroll_offset ≤ t - v →
      (applyScrollOps t v s ops).scroll_offset ≤ t - v := by
  intro ops
  induction ops with
  | nil => intro s h; exact h
  | cons op ops ih =>
    intro s h
    cases op with
    | up =>
      refine ih _ ?_
      rw [scroll_up_offset]
      omega
    | down => exact ih _ (scroll_down_bounded_le s t v h)

lemma applyScrollOps_down_converges (t v : Nat) :
    ∀ (n : Nat) (s : AppState), s.scroll_offset ≤ t - v →
      (applyScrollOps t v s (List.replicate n ScrollOp.down)).scroll_offset
        = min (s.scroll_offset + n) (t - v) := by
  intro n
  induction n with
  | zero => intro s h; simp [applyScrollOps]; omega
  | succ n ih =>
    intro s h
    rw [List.replicate_succ]
    show (applyScrollOps t v (s.scroll_down_bounded t v)
      (List.replicate n ScrollOp.down)).scroll_offset = _
    rw [ih _ (scroll_down_bounded_le s t v h), scroll_down_bounded_offset]
    split_ifs with h2 <;> omega

/-- C4: starting from scroll_offset = 0, every sequence of ScrollUp and
ScrollDown steps at a fixed (total_lines, visible_height) keeps the offset
within [0, max(0, total_lines - visible_height)] (in the Nat model the lower
bound is the ScrollUp floor, stated as the saturating-decrement equation);
n ScrollDown steps from 0 reach exactly min n (total - visible), so repeated
ScrollDown converges to the maximum, and when total_lines ≤ visible_height
the offset never leaves 0. -/
theorem C4_scroll_offset_bounds (total visible : Nat) (ops : List ScrollOp) (n : Nat) :
    (applyScrollOps total visible AppState.default ops).scroll_offset
      ≤ total - visible ∧
    (applyScrollOps total visible AppState.default
        (List.replicate n ScrollOp.down)).scroll_offset
      = min n (total - visible) ∧
    ∀ s : AppState, s.scroll_up.scroll_offset = s.scroll_offset - 1 := by
  refine ⟨applyScrollOps_le total visible ops AppState.default (by simp [AppState.default]),
    ?_, fun s => scroll_up_offset s⟩
  have := applyScrollOps_down_converges total visible n AppState.default
    (by simp [AppState.default])
  simpa [AppState.default] using this

/-! ## Session Commit dispatch (C9, C10) -/

/-- C9: dispatching Commit (the Clear action of src/ui/events.rs update)
records the input into the history exactly when its trim is non-empty, and
in every case clears the input, resets the scroll offset to 0 and clears
last_error. -/
theorem C9_commit_records_then_clears (rt : JaqRuntime) (td : Nat → Rat)
    (now : Nat) (app : App) :
    (update rt td now app UiAction.clear).state.input = "" ∧
    (update rt td now app UiAction.clear).state.scroll_offset = 0 ∧
    (update rt td now app UiAction.clear).state.last_error = Option.none ∧
    (update rt td now app UiAction.clear).state.query_history =
      (if isBlank app.state.input then app.state.query_history
       else app.state.query_history.record_query td now app.state.input) := by
  unfold update
  by_cases h : isBlank app.state.input <;>
    simp [h, App.record_query, App.mapState, AppState.clear_input, AppState.reset_scroll]

/-- C10: dispatching Clear (Commit) through EnhancedApp::update_with_action
clears the input, resets the scroll offset and clears last_error, but leaves
the query history completely unchanged — this dispatch path never records the
committed text, even when its trim is non-empty. -/
theorem C10_enhanced_clear_skips_history
    (exec : Value → String → Except AppError (List Value)) (app : EnhancedApp) :
    (app.update_with_action exec UiAction.clear).state.query_history
      = app.state.query_history ∧
    (app.update_with_action exec UiAction.clear).state.input = "" ∧
    (app.update_with_action exec UiAction.clear).state.scroll_offset = 0 ∧
    (app.update_with_action exec UiAction.clear).state.last_error = Option.none := by
  simp [EnhancedApp.update_with_action, EnhancedApp.mapState, AppState.clear_input,
    AppState.reset_scroll]

/-! ## Content generation (C5) -/

/-- C5: the generated content is the document pretty-printed in full when the
input is empty; on successful execution it is the literal text null for zero
results, the pretty-printed value for one result and the pretty-printed
sequence for several; and it is the empty string when execution fails on a
non-empty input. -/
theorem C5_generate_current_content (rt : JaqRuntime) (app : App) :
    app.generate_current_content rt =
      if app.state.input.isEmpty then toStringPretty app.data
      else
        match app.execute_current_query rt with
        | .ok .empty => "null"
        | .ok (.single v) => toStringPretty v
        | .ok (.multiple vs) => toStringPretty (Value.arr vs)
        | .error _ => "" := by
  by_cases h : app.state.input.isEmpty
  · have hE : app.execute_current_query rt = .error (.queryCompile "Empty query") := by
      simp [App.execute_current_query, JsonData.execute_query, h]
    simp [App.generate_current_content, hE, h]
  · rcases hE : app.execute_current_query rt with e | r
    · simp [App.generate_current_content, hE, h]
    · rcases r with v | vs | _ <;>
        simp [App.generate_current_content, hE, h, QueryResult.format_pretty]

/-! ## Caching decorator (C2, C3) -/

lemma find?_map_replace (c : Cache) (k : String) (v : List Value)
    (h : c.any (fun p => p.1 == k) = true) :
    (c.map (fun p => if p.1 == k then (k, v) else p)).find? (fun p => p.1 == k)
      = some (k, v) := by
  induction c with
  | nil => simp at h
  | cons p rest ih =>
    rw [List.map_cons]
    by_cases hp : p.1 = k
    · have he : (if p.1 == k then (k, v) else p) = (k, v) := by simp [hp]
      rw [he, List.find?_cons_of_pos _ (by simp)]
    · have he : (if p.1 == k then (k, v) else p) = p := by simp [hp]
      have h2 : rest.any (fun p => p.1 == k) = true := by
        simp only [List.any_cons, Bool.or_eq_true] at h
        rcases h with h | h
        · exact absurd (by simpa using h) hp
        · exact h
      rw [he, List.find?_cons_of_neg _ (by simp [hp])]
      exact ih h2

lemma find?_append_new (c : Cache) (k : String) (v : List Value)
    (h : c.any (fun p => p.1 == k) = false) :
    (c ++ [(k, v)]).find? (fun p => p.1 == k) = some (k, v) := by
  rw [List.find?_append]
  have hn : c.find? (fun p => p.1 == k) = Option.none := by
    rw [List.find?_eq_none]
    intro x hx
    exact List.any_eq_false.mp h x hx
  simp [hn, List.find?]

lemma cacheGet_cacheSet (c : Cache) (k : String) (v : List Value) :
    cacheGet (cacheSet c k v) k = some v := by
  unfold cacheGet cacheSet
  by_cases h : c.any (fun p => p.1 == k) = true
  · rw [if_pos h, find?_map_replace c k v h]
    rfl
  · have hf := Bool.not_eq_true _ |>.mp h
    rw [if_neg h, find?_append_new c k v hf]
    rfl

/-- C2: when the wrapped executor succeeds on (document, query) and the key
is not yet cached, the first decorated call invokes the wrapped executor
exactly once, stores the result, and the second identical call is a cache
hit returning the identical sequence with zero wrapped invocations. -/
theorem C2_cache_single_invocation (ck : Value → String → String)
    (inner : Value → String → Except AppError (List Value))
    (c : Cache) (d : Value) (q : String) (vs : List Value)
    (hok : inner d q = .ok vs) (hmiss : cacheGet c (ck d q) = Option.none) :
    CachedQueryExecutor.execute ck inner c d q
      = ⟨.ok vs, cacheSet c (ck d q) vs, 1⟩ ∧
    CachedQueryExecutor.execute ck inner (cacheSet c (ck d q) vs) d q
      = ⟨.ok vs, cacheSet c (ck d q) vs, 0⟩ := by
  constructor
  · simp [CachedQueryExecutor.execute, hmiss, hok]
  · simp [CachedQueryExecutor.execute, cacheGet_cacheSet]

/-- Witness for C2 at a concrete executor, document and query. -/
theorem C2_cache_single_invocation_witness :
    CachedQueryExecutor.execute (fun _ q => q) (fun _ _ => .ok [Value.null])
        [] Value.null ".x"
      = ⟨.ok [Value.null], cacheSet [] ".x" [Value.null], 1⟩ ∧
    CachedQueryExecutor.execute (fun _ q => q) (fun _ _ => .ok [Value.null])
        (cacheSet [] ".x" [Value.null]) Value.null ".x"
      = ⟨.ok [Value.null], cacheSet [] ".x" [Value.null], 0⟩ :=
  C2_cache_single_invocation (fun _ q => q) (fun _ _ => .ok [Value.null])
    [] Value.null ".x" [Value.null] rfl rfl

/-- C3: when the wrapped executor fails on (document, query) and the key is
not cached, the decorator returns that same error unchanged, the cache after
the call equals the cache before it, and a later identical call reaches the
wrapped executor again (one wrapped invocation each time). -/
theorem C3_error_never_cached (ck : Value → String → String)
    (inner : Value → String → Except AppError (List Value))
    (c : Cache) (d : Value) (q : String) (e : AppError)
    (herr : inner d q = .error e) (hmiss : cacheGet c (ck d q) = Option.none) :
    CachedQueryExecutor.execute ck inner c d q = ⟨.error e, c, 1⟩ ∧
    CachedQueryExecutor.execute ck inner
        (CachedQueryExecutor.execute ck inner c d q).cache d q
      = ⟨.error e, c, 1⟩ := by
  have h1 : CachedQueryExecutor.execute ck inner c d q = ⟨.error e, c, 1⟩ := by
    simp [CachedQueryExecutor.execute, hmiss, herr]
  exact ⟨h1, by rw [h1]; exact h1⟩

/-- Witness for C3 at a concrete failing executor. -/
theorem C3_error_never_cached_witness :
    CachedQueryExecutor.execute (fun _ q => q)
        (fun _ _ => .error (.queryCompile "boom")) [] Value.null ".x"
      = ⟨.error (.queryCompile "boom"), [], 1⟩ ∧
    CachedQueryExecutor.execute (fun _ q => q)
        (fun _ _ => .error (.queryCompile "boom"))
        (CachedQueryExecutor.execute (fun _ q => q)
          (fun _ _ => .error (.queryCompile "boom")) [] Value.null ".x").cache
        Value.null ".x"
      = ⟨.error (.queryCompile "boom"), [], 1⟩ :=
  C3_error_never_cached (fun _ q => q) (fun _ _ => .error (.queryCompile "boom"))
    [] Value.null ".x" (.queryCompile "boom") rfl rfl

/-! ## Executor error contract (C1) -/

/-- C1 counterexample: a runtime on which compilation succeeds and every
evaluation result is an error; the executor still returns a success (the
empty value list) instead of a QueryExecution failure, because the source
collects results with filter_map over Result::ok. JsonData::execute_query
classifies the same silent success as QueryResult::Empty. -/
theorem C1_counterexample_evaluation_error_swallowed :
    (JaqRuntime.mk (fun _ => Except.ok ())
        (fun _ _ => [Except.error "evaluation failed"])).compile ".a"
      = Except.ok () ∧
    (JaqRuntime.mk (fun _ => Except.ok ())
        (fun _ _ => [Except.error "evaluation failed"])).run ".a" Value.null
      = [Except.error "evaluation failed"] ∧
    JaqQueryExecutor.execute
        (JaqRuntime.mk (fun _ => Except.ok ())
          (fun _ _ => [Except.error "evaluation failed"]))
        Value.null ".a"
      = Except.ok [] ∧
    JsonData.execute_query
        (JaqRuntime.mk (fun _ => Except.ok ())
          (fun _ _ => [Except.error "evaluation failed"]))
        Value.null ".a"
      = Except.ok QueryResult.empty := by
  refine ⟨rfl, rfl, ?_, ?_⟩ <;> rfl

/-- C1 (amended): execute fails with QueryCompileError exactly when the query
text is empty or fails to compile; when compilation succeeds it always
returns a success holding the successfully evaluated values, silently
discarding per-result evaluation errors, and a QueryExecutionError is never
produced (neither by JaqQueryExecutor::execute nor by
JsonData::execute_query). -/
theorem C1_execute_error_contract (rt : JaqRuntime) (d : Value) (q : String)
    (e : String) :
    (q.isEmpty = true →
      JaqQueryExecutor.execute rt d q = .error (.queryCompile "Empty query")) ∧
    (q.isEmpty = false → rt.compile q = .error e →
      JaqQueryExecutor.execute rt d q = .error (.queryCompile e)) ∧
    (q.isEmpty = false → rt.compile q = .ok () →
      JaqQueryExecutor.execute rt d q
        = .ok ((rt.run q d).filterMap Except.toOption)) ∧
    (∀ m, JaqQueryExecutor.execute rt d q ≠ .error (.queryExecution m)) ∧
    (∀ m, JsonData.execute_query rt d q ≠ .error (.queryExecution m)) := by
  refine ⟨?_, ?_, ?_, ?_, ?_⟩
  · intro h
    simp [JaqQueryExecutor.execute, h]
  · intro h hc
    simp [JaqQueryExecutor.execute, h, hc]
  · intro h hc
    simp [JaqQueryExecutor.execute, h, hc]
  · intro m
    unfold JaqQueryExecutor.execute
    split_ifs with h
    · simp
    · rcases hc : rt.compile q with er | u <;> simp [hc]
  · intro m
    unfold JsonData.execute_query
    split_ifs with h
    · simp
    · rcases hc : rt.compile q with er | u <;> simp [hc]

/-- Witness for C1 at concrete runtimes: the empty query, a compile failure,
and a compile success whose evaluation errors are dropped. -/
theorem C1_execute_error_contract_witness :
    JaqQueryExecutor.execute
        (JaqRuntime.mk (fun _ => Except.ok ())
          (fun _ _ => [Except.error "evaluation failed"])) Value.null ""
      = .error (.queryCompile "Empty query") ∧
    JaqQueryExecutor.execute
        (JaqRuntime.mk (fun _ => Except.error "Compiler: bad") (fun _ _ => []))
        Value.null ".a"
      = .error (.queryCompile "Compiler: bad") ∧
    JaqQueryExecutor.execute
        (JaqRuntime.mk (fun _ => Except.ok ())
          (fun _ _ => [Except.error "evaluation failed"])) Value.null ".a"
      = .ok (([Except.error "evaluation failed"] :
          List (Except String Value)).filterMap Except.toOption) :=
  ⟨(C1_execute_error_contract
      (JaqRuntime.mk (fun _ => Except.ok ())
        (fun _ _ => [Except.error "evaluation failed"])) Value.null "" "x").1 rfl,
   (C1_execute_error_contract
      (JaqRuntime.mk (fun _ => Except.error "Compiler: bad") (fun _ _ => []))
      Value.null ".a" "Compiler: bad").2.1 rfl rfl,
   (C1_execute_error_contract
      (JaqRuntime.mk (fun _ => Except.ok ())
        (fun _ _ => [Except.error "evaluation failed"])) Value.null ".a" "x").2.2.1
     rfl rfl⟩

/-! ## History recording (C8) -/

lemma cleanup_noop (td : Nat → Rat) (now : Nat) (h : QueryHistory)
    (hle : h.entries.length ≤ h.max_entries) :
    h.cleanup_old_entries td now = h := by
  unfold QueryHistory.cleanup_old_entries
  rw [if_pos hle]

lemma find?_map_update (q : String) (now : Nat) :
    ∀ (l : List QueryEntry) (e : QueryEntry),
      l.find? (fun x => x.query == q) = some e →
      (l.map (fun x => if x.query == q
          then { x with count := x.count + 1, last_used := now } else x)).find?
          (fun x => x.query == q)
        = some { e with count := e.count + 1, last_used := now } := by
  intro l
  induction l with
  | nil => intro e h; simp at h
  | cons x rest ih =>
    intro e h
    by_cases hx : x.query = q
    · rw [List.find?_cons_of_pos _ (by simp [hx])] at h
      obtain rfl : x = e := by injection h
      rw [List.map_cons]
      have he : (if x.query == q
          then { x with count := x.count + 1, last_used := now } else x)
          = { x with count := x.count + 1, last_used := now } := by simp [hx]
      rw [he, List.find?_cons_of_pos _ (by simp [hx])]
    · rw [List.find?_cons_of_neg _ (by simp [hx])] at h
      rw [List.map_cons]
      have he : (if x.query == q
          then { x with count := x.count + 1, last_used := now } else x) = x := by
        simp [hx]
      rw [he, List.find?_cons_of_neg _ (by simp [hx])]
      exact ih e h

lemma cleanup_max_entries (td : Nat → Rat) (now : Nat) (h : QueryHistory) :
    (h.cleanup_old_entries td now).max_entries = h.max_entries := by
  unfold QueryHistory.cleanup_old_entries
  split_ifs <;> rfl

lemma record_query_max_entries (td : Nat → Rat) (now : Nat) (h : QueryHistory)
    (q : String) :
    (h.record_query td now q).max_entries = h.max_entries := by
  unfold QueryHistory.record_query
  split_ifs with h1 h2 <;> simp [cleanup_max_entries]

lemma recordRepeated_single (td : Nat → Rat) (now : Nat) (q : String) (M : Nat)
    (hq : isBlank q = false) (hM : 1 ≤ M) :
    ∀ N, 1 ≤ N →
      (recordRepeated td now q (QueryHistory.new M) N).entries = [⟨q, N, now, now⟩] ∧
      (recordRepeated td now q (QueryHistory.new M) N).max_entries = M := by
  intro N
  induction N with
  | zero => intro h; omega
  | succ n ih =>
    intro _
    by_cases hn : 1 ≤ n
    · obtain ⟨h1, h2⟩ := ih hn
      constructor
      · show ((recordRepeated td now q (QueryHistory.new M) n).record_query
          td now q).entries = _
        unfold QueryHistory.record_query
        rw [if_neg (by simp [hq])]
        rw [if_pos (by simp [h1])]
        rw [cleanup_noop _ _ _ (by simp [h1, h2]; omega)]
        simp [h1]
      · rw [recordRepeated, record_query_max_entries]
        exact h2
    · have hn0 : n = 0 := by omega
      subst hn0
      constructor
      · show ((QueryHistory.new M).record_query td now q).entries = _
        unfold QueryHistory.record_query
        rw [if_neg (by simp [hq])]
        rw [if_neg (by simp [QueryHistory.new])]
        rw [cleanup_noop _ _ _ (by simp [QueryHistory.new]; omega)]
        simp [QueryHistory.new]
      · rw [recordRepeated, record_query_max_entries]
        rfl

/-- C8: record_query ignores blank or whitespace-only text; an existing
entry (found by exact text) has its count incremented by 1 and last_used set
to now, keeping first_used; a fresh non-blank text is inserted with
count = 1 and first_used = last_used = now; and, capacity permitting,
recording the same text N ≥ 1 times from an empty history yields exactly one
entry with count = N. -/
theorem C8_record_query_semantics (td : Nat → Rat) (now : Nat)
    (h : QueryHistory) (q : String) (e : QueryEntry) (N M : Nat) :
    (isBlank q = true → h.record_query td now q = h) ∧
    (isBlank q = false → h.entries.length ≤ h.max_entries →
      h.entries.find? (fun x => x.query == q) = some e →
      (h.record_query td now q).entries.find? (fun x => x.query == q)
        = some { e with count := e.count + 1, last_used := now }) ∧
    (isBlank q = false → h.entries.length < h.max_entries →
      h.entries.find? (fun x => x.query == q) = Option.none →
      (h.record_query td now q).entries.find? (fun x => x.query == q)
        = some ⟨q, 1, now, now⟩) ∧
    (isBlank q = false → 1 ≤ M → 1 ≤ N →
      (recordRepeated td now q (QueryHistory.new M) N).entries
        = [⟨q, N, now, now⟩]) := by
  refine ⟨?_, ?_, ?_, ?_⟩
  · intro hq
    unfold QueryHistory.record_query
    rw [if_pos hq]
  · intro hq hle hfind
    have hmem := List.mem_of_find?_eq_some hfind
    have hpred := List.find?_some hfind
    unfold QueryHistory.record_query
    rw [if_neg (by simp [hq])]
    rw [if_pos (List.any_eq_true.mpr ⟨e, hmem, hpred⟩)]
    rw [cleanup_noop _ _ _ (by simpa using hle)]
    exact find?_map_update q now h.entries e hfind
  · intro hq hlt hfind
    have hany : h.entries.any (fun x => x.query == q) = false := by
      rw [List.any_eq_false]
      intro x hx
      exact (List.find?_eq_none.mp hfind) x hx
    unfold QueryHistory.record_query
    rw [if_neg (by simp [hq])]
    rw [if_neg (by simp [hany])]
    rw [cleanup_noop _ _ _ (by simp; omega)]
    simp only [List.find?_append, hfind, Option.none_or]
    rw [List.find?_cons_of_pos _ (by simp)]
  · intro hq hM hN
    exact (recordRepeated_single td now q M hq hM N hN).1

/-- Witness for C8: blank text is ignored, and recording ".name" three times
into a fresh history of capacity 100 yields one entry with count 3. -/
theorem C8_record_query_semantics_witness :
    QueryHistory.record_query (fun _ => 1) 0 (QueryHistory.new 100) "   "
      = QueryHistory.new 100 ∧
    (recordRepeated (fun _ => 1) 0 ".name" (QueryHistory.new 100) 3).entries
      = [⟨".name", 3, 0, 0⟩] :=
  ⟨(C8_record_query_semantics (fun _ => 1) 0 (QueryHistory.new 100) "   "
      ⟨"", 0, 0, 0⟩ 0 0).1 (by decide),
   (C8_record_query_semantics (fun _ => 1) 0 (QueryHistory.new 100) ".name"
      ⟨"", 0, 0, 0⟩ 3 100).2.2.2 (by decide) (by decide) (by decide)⟩

/-! ## Suggestion retrieval (C7) -/

/-- C7 counterexample: the guard in the source is on the UTF-8 byte length of
the prefix, not its character count. The prefix used here has one character
(fewer than 2) but two bytes, so instead of the empty result the claim
requires, get_suggestions returns the matching stored entry. -/
theorem C7_counterexample_one_char_two_bytes :
    "é".length < 2 ∧
    (QueryHistory.get_suggestions (fun _ => 1) 0
        ((QueryHistory.new 100).record_query (fun _ => 1) 0 "éa") "é" 5).length
      = 1 := by
  constructor
  · decide
  · have h1 : (QueryHistory.new 100).record_query (fun _ => 1) 0 "éa"
        = ⟨[⟨"éa", 1, 0, 0⟩], 100, 1 / 2⟩ := by
      unfold QueryHistory.record_query
      rw [if_neg (by decide)]
      simp only [QueryHistory.new, List.any_nil, Bool.false_eq_true, if_false,
        List.nil_append]
      unfold QueryHistory.cleanup_old_entries
      rw [if_pos (by norm_num)]
    rw [h1]
    unfold QueryHistory.get_suggestions
    rw [if_neg (by decide)]
    rw [List.filter_cons_of_pos (by decide), List.filter_nil, List.map_cons,
      List.map_nil]
    simp only [List.mergeSort_singleton]
    rfl

/-- C7 (amended): get_suggestions returns the empty list whenever the prefix
has fewer than 2 bytes in UTF-8 (Rust str::len); otherwise the result holds
exactly min limit (number of matching entries) items, is sorted in
descending score order, consists only of suggestions built from stored
entries whose text starts with the prefix and differs from it, every
matching entry whose suggestion was truncated away scores no higher than
every returned item (the result is the top limit by score), and — whenever
limit is at least the number of matching entries — it contains the
suggestion of every matching entry. -/
theorem C7_get_suggestions_contract (td : Nat → Rat) (now : Nat)
    (h : QueryHistory) (pfx : String) (limit : Nat) :
    (pfx.utf8ByteSize < 2 → h.get_suggestions td now pfx limit = []) ∧
    (2 ≤ pfx.utf8ByteSize →
      (h.get_suggestions td now pfx limit).length
        = min limit ((h.entries.filter
            (fun e => pfx.toList.isPrefixOf e.query.toList && e.query != pfx)).length) ∧
      (h.get_suggestions td now pfx limit).Pairwise
        (fun a b => b.score ≤ a.score) ∧
      (∀ s ∈ h.get_suggestions td now pfx limit, ∃ e ∈ h.entries,
        (pfx.toList.isPrefixOf e.query.toList && e.query != pfx) = true ∧
        s = SuggestionItem.mk e.query (h.calculate_score td now e)) ∧
      (∀ e ∈ h.entries,
        (pfx.toList.isPrefixOf e.query.toList && e.query != pfx) = true →
        SuggestionItem.mk e.query (h.calculate_score td now e)
          ∉ h.get_suggestions td now pfx limit →
        ∀ s ∈ h.get_suggestions td now pfx limit,
          h.calculate_score td now e ≤ s.score) ∧
      ((h.entries.filter
          (fun e => pfx.toList.isPrefixOf e.query.toList && e.query != pfx)).length
            ≤ limit →
        ∀ e ∈ h.entries,
          (pfx.toList.isPrefixOf e.query.toList && e.query != pfx) = true →
          SuggestionItem.mk e.query (h.calculate_score td now e)
            ∈ h.get_suggestions td now pfx limit)) := by
  constructor
  · intro hlt
    unfold QueryHistory.get_suggestions
    rw [if_pos hlt]
  · intro hge
    have hg : h.get_suggestions td now pfx limit =
        (((h.entries.filter
            (fun e => pfx.toList.isPrefixOf e.query.toList && e.query != pfx)).map
          (fun e => SuggestionItem.mk e.query (h.calculate_score td now e))).mergeSort
            (fun a b => b.score ≤ a.score)).take limit := by
      unfold QueryHistory.get_suggestions
      rw [if_neg (by omega)]
    have hsorted := @List.sorted_mergeSort SuggestionItem
      (fun a b => decide (b.score ≤ a.score))
      (fun a b c hab hbc => by
        simp only [decide_eq_true_eq] at *
        exact le_trans hbc hab)
      (fun a b => by
        simp only [Bool.or_eq_true, decide_eq_true_eq]
        exact le_total b.score a.score)
      ((h.entries.filter
          (fun e => pfx.toList.isPrefixOf e.query.toList && e.query != pfx)).map
        (fun e => SuggestionItem.mk e.query (h.calculate_score td now e)))
    have hsplit : ((((h.entries.filter
        (fun e => pfx.toList.isPrefixOf e.query.toList && e.query != pfx)).map
          (fun e => SuggestionItem.mk e.query (h.calculate_score td now e))).mergeSort
            (fun a b => b.score ≤ a.score)).take limit)
        ++ ((((h.entries.filter
        (fun e => pfx.toList.isPrefixOf e.query.toList && e.query != pfx)).map
          (fun e => SuggestionItem.mk e.query (h.calculate_score td now e))).mergeSort
            (fun a b => b.score ≤ a.score)).drop limit)
        = (((h.entries.filter
        (fun e => pfx.toList.isPrefixOf e.query.toList && e.query != pfx)).map
          (fun e => SuggestionItem.mk e.query (h.calculate_score td now e))).mergeSort
            (fun a b => b.score ≤ a.score)) :=
      List.take_append_drop _ _
    refine ⟨?_, ?_, ?_, ?_, ?_⟩
    · rw [hg, List.length_take, List.length_mergeSort, List.length_map]
    · rw [hg]
      have hp := hsorted.sublist (List.take_sublist limit _)
      exact hp.imp (fun hab => of_decide_eq_true hab)
    · intro s hs
      rw [hg] at hs
      have hs2 := List.mem_of_mem_take hs
      rw [(List.mergeSort_perm _ _).mem_iff] at hs2
      obtain ⟨e, he, rfl⟩ := List.mem_map.mp hs2
      obtain ⟨he1, he2⟩ := List.mem_filter.mp he
      exact ⟨e, he1, he2, rfl⟩
    · intro e he hmatch hnotin s hs
      rw [hg] at hnotin hs
      have hcand : SuggestionItem.mk e.query (h.calculate_score td now e)
          ∈ ((h.entries.filter
            (fun e => pfx.toList.isPrefixOf e.query.toList && e.query != pfx)).map
          (fun e => SuggestionItem.mk e.query (h.calculate_score td now e))) :=
        List.mem_map.mpr ⟨e, List.mem_filter.mpr ⟨he, hmatch⟩, rfl⟩
      have hms : SuggestionItem.mk e.query (h.calculate_score td now e)
          ∈ (((h.entries.filter
            (fun e => pfx.toList.isPrefixOf e.query.toList && e.query != pfx)).map
          (fun e => SuggestionItem.mk e.query (h.calculate_score td now e))).mergeSort
            (fun a b => b.score ≤ a.score)) :=
        (List.mergeSort_perm _ _).mem_iff.mpr hcand
      have hms2 : SuggestionItem.mk e.query (h.calculate_score td now e)
          ∈ ((((h.entries.filter
            (fun e => pfx.toList.isPrefixOf e.query.toList && e.query != pfx)).map
          (fun e => SuggestionItem.mk e.query (h.calculate_score td now e))).mergeSort
            (fun a b => b.score ≤ a.score)).take limit)
          ++ ((((h.entries.filter
            (fun e => pfx.toList.isPrefixOf e.query.toList && e.query != pfx)).map
          (fun e => SuggestionItem.mk e.query (h.calculate_score td now e))).mergeSort
            (fun a b => b.score ≤ a.score)).drop limit) := by
        rw [hsplit]
        exact hms
      rcases List.mem_append.mp hms2 with hin | hin
      · exact absurd hin hnotin
      · rw [← hsplit] at hsorted
        have hcmp := (List.pairwise_append.mp hsorted).2.2 s hs _ hin
        exact of_decide_eq_true hcmp
    · intro hlen e he hmatch
      rw [hg]
      have hlenms : (((h.entries.filter
          (fun e => pfx.toList.isPrefixOf e.query.toList && e.query != pfx)).map
            (fun e => SuggestionItem.mk e.query (h.calculate_score td now e))).mergeSort
          (fun a b => b.score ≤ a.score)).length ≤ limit := by
        rw [List.length_mergeSort, List.length_map]
        exact hlen
      rw [List.take_of_length_le hlenms, (List.mergeSort_perm _ _).mem_iff]
      exact List.mem_map.mpr ⟨e, List.mem_filter.mpr ⟨he, hmatch⟩, rfl⟩

/-- Witness for C7 at a short and a long enough prefix. -/
theorem C7_get_suggestions_contract_witness :
    QueryHistory.get_suggestions (fun _ => 1) 0 (QueryHistory.new 100) "." 5 = [] ∧
    (QueryHistory.get_suggestions (fun _ => 1) 0 (QueryHistory.new 100) ".n" 5).length
      = min 5 (((QueryHistory.new 100).entries.filter
          (fun e => ".n".toList.isPrefixOf e.query.toList && e.query != ".n")).length) :=
  ⟨(C7_get_suggestions_contract (fun _ => 1) 0 (QueryHistory.new 100) "." 5).1
      (by decide),
   ((C7_get_suggestions_contract (fun _ => 1) 0 (QueryHistory.new 100) ".n" 5).2
      (by decide)).1⟩

/-! ## History capacity and eviction (C6) -/

lemma eraseP_eq_filter_of_nodup_keys (k : String) :
    ∀ (l : List QueryEntry), (l.map (·.query)).Nodup →
      l.eraseP (fun e => e.query == k) = l.filter (fun e => !(e.query == k)) := by
  intro l
  induction l with
  | nil => intro _; rfl
  | cons x rest ih =>
    intro hnd
    rw [List.map_cons, List.nodup_cons] at hnd
    obtain ⟨hx, hrest⟩ := hnd
    by_cases hk : x.query = k
    · rw [List.eraseP_cons_of_pos (by simp [hk])]
      rw [List.filter_cons_of_neg (by simp [hk])]
      rw [List.filter_eq_self.mpr]
      intro e he
      have : e.query ∈ rest.map (·.query) := List.mem_map.mpr ⟨e, he, rfl⟩
      simp only [Bool.not_eq_eq_eq_not, Bool.not_true, beq_eq_false_iff_ne]
      intro hek
      exact hx (by rw [hk, ← hek]; exact this)
    · rw [List.eraseP_cons_of_neg (by simp [hk])]
      rw [List.filter_cons_of_pos (by simp [hk])]
      rw [ih hrest]

lemma foldl_eraseP_facts :
    ∀ (ks : List String) (es : List QueryEntry),
      (es.map (·.query)).Nodup → ks.Nodup →
      (∀ k ∈ ks, ∃ e ∈ es, e.query = k) →
      (ks.foldl (fun acc k => acc.eraseP (fun e => e.query == k)) es).length
          = es.length - ks.length ∧
      (∀ e, e ∈ ks.foldl (fun acc k => acc.eraseP (fun e => e.query == k)) es
        ↔ e ∈ es ∧ e.query ∉ ks) ∧
      (ks.foldl (fun acc k => acc.eraseP (fun e => e.query == k)) es).Sublist es := by
  intro ks
  induction ks with
  | nil =>
    intro es hnd _ _
    exact ⟨by simp, by simp, List.Sublist.refl es⟩
  | cons k ks ih =>
    intro es hnd hksnd hpres
    rw [List.nodup_cons] at hksnd
    obtain ⟨hkks, hksnd⟩ := hksnd
    obtain ⟨w, hw, hwq⟩ := hpres k (by simp)
    have hfe : es.eraseP (fun e => e.query == k)
        = es.filter (fun e => !(e.query == k)) :=
      eraseP_eq_filter_of_nodup_keys k es hnd
    have hlen1 : (es.eraseP (fun e => e.query == k)).length = es.length - 1 :=
      List.length_eraseP_of_mem hw (by simp [hwq])
    have hsub1 : (es.eraseP (fun e => e.query == k)).Sublist es :=
      List.eraseP_sublist es
    have hnd1 : ((es.eraseP (fun e => e.query == k)).map (·.query)).Nodup :=
      (hsub1.map (·.query)).nodup hnd
    have hmem1 : ∀ e, e ∈ es.eraseP (fun e => e.query == k)
        ↔ e ∈ es ∧ e.query ≠ k := by
      intro e
      rw [hfe, List.mem_filter]
      simp
    have hpres1 : ∀ k2 ∈ ks, ∃ e ∈ es.eraseP (fun e => e.query == k), e.query = k2 := by
      intro k2 hk2
      obtain ⟨e, he, heq⟩ := hpres k2 (by simp [hk2])
      refine ⟨e, (hmem1 e).mpr ⟨he, ?_⟩, heq⟩
      rw [heq]
      intro hcon
      exact hkks (hcon ▸ hk2)
    obtain ⟨ihlen, ihmem, ihsub⟩ := ih (es.eraseP (fun e => e.query == k)) hnd1 hksnd hpres1
    have hes1 : 1 ≤ es.length := by
      cases es with
      | nil => cases hw
      | cons a l => simp
    refine ⟨?_, ?_, ?_⟩
    · rw [List.foldl_cons, ihlen, hlen1]
      simp only [List.length_cons]
      omega
    · intro e
      rw [List.foldl_cons, ihmem e, hmem1 e]
      simp only [List.mem_cons]
      constructor
      · rintro ⟨⟨he, hne⟩, hnks⟩
        exact ⟨he, by rintro (h | h) <;> [exact hne h; exact hnks h]⟩
      · rintro ⟨he, hn⟩
        exact ⟨⟨he, fun hc => hn (Or.inl hc)⟩, fun hc => hn (Or.inr hc)⟩
    · rw [List.foldl_cons]
      exact ihsub.trans hsub1

lemma cleanup_entries_of_gt (td : Nat → Rat) (now : Nat) (h : QueryHistory)
    (hgt : h.max_entries < h.entries.length) :
    (h.cleanup_old_entries td now).entries
      = (((h.entries.map (fun e => (e.query, h.calculate_score td now e))).mergeSort
          (fun a b => a.2 ≤ b.2)).take (h.entries.length - h.max_entries)).foldl
          (fun es p => es.eraseP (fun e => e.query == p.1)) h.entries := by
  unfold QueryHistory.cleanup_old_entries
  rw [if_neg (by omega)]

lemma cleanup_overflow (td : Nat → Rat) (now : Nat) (h : QueryHistory)
    (hnd : (h.entries.map (·.query)).Nodup)
    (hgt : h.max_entries < h.entries.length) :
    (h.cleanup_old_entries td now).entries.length = h.max_entries ∧
    (h.cleanup_old_entries td now).entries.Sublist h.entries ∧
    (∀ e ∈ h.entries, e ∉ (h.cleanup_old_entries td now).entries →
      ∀ s ∈ (h.cleanup_old_entries td now).entries,
        h.calculate_score td now e ≤ h.calculate_score td now s) := by
  have hpairsKeys : ((h.entries.map
      (fun e => (e.query, h.calculate_score td now e))).map (·.1))
      = h.entries.map (·.query) := by
    rw [List.map_map]
    rfl
  have hperm := List.mergeSort_perm
    (h.entries.map (fun e => (e.query, h.calculate_score td now e)))
    (fun a b => a.2 ≤ b.2)
  have hndSorted : (((h.entries.map
      (fun e => (e.query, h.calculate_score td now e))).mergeSort
        (fun a b => a.2 ≤ b.2)).map (·.1)).Nodup := by
    rw [(hperm.map (·.1)).nodup_iff, hpairsKeys]
    exact hnd
  have hsortlen : ((h.entries.map
      (fun e => (e.query, h.calculate_score td now e))).mergeSort
        (fun a b => a.2 ≤ b.2)).length = h.entries.length := by
    rw [List.length_mergeSort, List.length_map]
  have hkeq : ((((h.entries.map
      (fun e => (e.query, h.calculate_score td now e))).mergeSort
        (fun a b => a.2 ≤ b.2)).take (h.entries.length - h.max_entries)).map (·.1))
      = (((h.entries.map
      (fun e => (e.query, h.calculate_score td now e))).mergeSort
        (fun a b => a.2 ≤ b.2)).map (·.1)).take (h.entries.length - h.max_entries) :=
    List.map_take _ _ _
  have hksnd : ((((h.entries.map
      (fun e => (e.query, h.calculate_score td now e))).mergeSort
        (fun a b => a.2 ≤ b.2)).take (h.entries.length - h.max_entries)).map
          (·.1)).Nodup := by
    rw [hkeq]
    exact (List.take_sublist _ _).nodup hndSorted
  have hpres : ∀ k ∈ ((((h.entries.map
      (fun e => (e.query, h.calculate_score td now e))).mergeSort
        (fun a b => a.2 ≤ b.2)).take (h.entries.length - h.max_entries)).map (·.1)),
      ∃ e ∈ h.entries, e.query = k := by
    intro k hk
    obtain ⟨p, hpt, hp1⟩ := List.mem_map.mp hk
    have hpsorted := List.mem_of_mem_take hpt
    have hppairs := hperm.mem_iff.mp hpsorted
    obtain ⟨e, he, hep⟩ := List.mem_map.mp hppairs
    exact ⟨e, he, by rw [← hp1, ← hep]⟩
  obtain ⟨hlen, hmem, hsub⟩ := foldl_eraseP_facts _ h.entries hnd hksnd hpres
  have hfold : ((((h.entries.map
      (fun e => (e.query, h.calculate_score td now e))).mergeSort
        (fun a b => a.2 ≤ b.2)).take (h.entries.length - h.max_entries)).map
          (·.1)).foldl (fun acc k => acc.eraseP (fun e => e.query == k)) h.entries
      = (((h.entries.map
      (fun e => (e.query, h.calculate_score td now e))).mergeSort
        (fun a b => a.2 ≤ b.2)).take (h.entries.length - h.max_entries)).foldl
          (fun es p => es.eraseP (fun e => e.query == p.1)) h.entries :=
    List.foldl_map _ _ _ _
  rw [hfold] at hlen hmem hsub
  have hkslen : ((((h.entries.map
      (fun e => (e.query, h.calculate_score td now e))).mergeSort
        (fun a b => a.2 ≤ b.2)).take (h.entries.length - h.max_entries)).map
          (·.1)).length = h.entries.length - h.max_entries := by
    rw [List.length_map, List.length_take, hsortlen]
    omega
  have hce := cleanup_entries_of_gt td now h hgt
  refine ⟨?_, ?_, ?_⟩
  · rw [hce, hlen, hkslen]
    omega
  · rw [hce]
    exact hsub
  · intro e he hnotin s hs
    rw [hce] at hnotin hs
    have heks : e.query ∈ ((((h.entries.map
        (fun e => (e.query, h.calculate_score td now e))).mergeSort
          (fun a b => a.2 ≤ b.2)).take (h.entries.length - h.max_entries)).map
            (·.1)) := by
      by_contra hc
      exact hnotin ((hmem e).mpr ⟨he, hc⟩)
    obtain ⟨hsmem, hsks⟩ := (hmem s).mp hs
    obtain ⟨p, hpt, hp1⟩ := List.mem_map.mp heks
    have hpe : p = (e.query, h.calculate_score td now e) := by
      refine List.inj_on_of_nodup_map hndSorted (List.mem_of_mem_take hpt) ?_ ?_
      · exact hperm.mem_iff.mpr (List.mem_map.mpr ⟨e, he, rfl⟩)
      · exact hp1
    have hpetake : (e.query, h.calculate_score td now e)
        ∈ (((h.entries.map
        (fun e => (e.query, h.calculate_score td now e))).mergeSort
          (fun a b => a.2 ≤ b.2)).take (h.entries.length - h.max_entries)) := by
      rw [← hpe]
      exact hpt
    have hpssorted : (s.query, h.calculate_score td now s)
        ∈ ((h.entries.map
        (fun e => (e.query, h.calculate_score td now e))).mergeSort
          (fun a b => a.2 ≤ b.2)) :=
      hperm.mem_iff.mpr (List.mem_map.mpr ⟨s, hsmem, rfl⟩)
    have hsplit : (((h.entries.map
        (fun e => (e.query, h.calculate_score td now e))).mergeSort
          (fun a b => a.2 ≤ b.2)).take (h.entries.length - h.max_entries))
        ++ (((h.entries.map
        (fun e => (e.query, h.calculate_score td now e))).mergeSort
          (fun a b => a.2 ≤ b.2)).drop (h.entries.length - h.max_entries))
        = ((h.entries.map
        (fun e => (e.query, h.calculate_score td now e))).mergeSort
          (fun a b => a.2 ≤ b.2)) :=
      List.take_append_drop _ _
    have hpsdrop : (s.query, h.calculate_score td now s)
        ∈ (((h.entries.map
        (fun e => (e.query, h.calculate_score td now e))).mergeSort
          (fun a b => a.2 ≤ b.2)).drop (h.entries.length - h.max_entries)) := by
      have hin2 : (s.query, h.calculate_score td now s)
          ∈ (((h.entries.map
          (fun e => (e.query, h.calculate_score td now e))).mergeSort
            (fun a b => a.2 ≤ b.2)).take (h.entries.length - h.max_entries))
          ++ (((h.entries.map
          (fun e => (e.query, h.calculate_score td now e))).mergeSort
            (fun a b => a.2 ≤ b.2)).drop (h.entries.length - h.max_entries)) := by
        rw [hsplit]
        exact hpssorted
      rcases List.mem_append.mp hin2 with hin | hin
      · exact absurd (List.mem_map.mpr ⟨_, hin, rfl⟩) hsks
      · exact hin
    have hpair := @List.sorted_mergeSort (String × Rat)
      (fun a b => decide (a.2 ≤ b.2))
      (fun a b c hab hbc => by
        simp only [decide_eq_true_eq] at *
        exact le_trans hab hbc)
      (fun a b => by
        simp only [Bool.or_eq_true, decide_eq_true_eq]
        exact le_total a.2 b.2)
      (h.entries.map (fun e => (e.query, h.calculate_score td now e)))
    rw [← hsplit] at hpair
    have := (List.pairwise_append.mp hpair).2.2 _ hpetake _ hpsdrop
    exact of_decide_eq_true this

lemma any_key_eq_false (es : List QueryEntry) (q : String)
    (hfresh : q ∉ es.map (·.query)) :
    es.any (fun e => e.query == q) = false := by
  rw [List.any_eq_false]
  intro e he
  simp only [beq_iff_eq]
  intro hc
  exact hfresh (hc ▸ List.mem_map.mpr ⟨e, he, rfl⟩)

lemma record_query_fresh (td : Nat → Rat) (now : Nat) (q : String)
    (h : QueryHistory) (hq : isBlank q = false)
    (hfresh : q ∉ h.entries.map (·.query)) :
    h.record_query td now q
      = QueryHistory.cleanup_old_entries td now
          { h with entries := h.entries ++ [(⟨q, 1, now, now⟩ : QueryEntry)] } := by
  unfold QueryHistory.record_query
  rw [if_neg (by simp [hq])]
  rw [if_neg (by simp [any_key_eq_false h.entries q hfresh])]

lemma record_fresh_facts (td : Nat → Rat) (now : Nat) (q : String)
    (h : QueryHistory)
    (hnd : (h.entries.map (·.query)).Nodup)
    (hle : h.entries.length ≤ h.max_entries)
    (hq : isBlank q = false)
    (hfresh : q ∉ h.entries.map (·.query)) :
    (h.record_query td now q).entries.length
      = min (h.entries.length + 1) h.max_entries ∧
    ((h.record_query td now q).entries.map (·.query)).Nodup ∧
    (∀ k ∈ (h.record_query td now q).entries.map (·.query),
      k = q ∨ k ∈ h.entries.map (·.query)) := by
  rw [record_query_fresh td now q h hq hfresh]
  have hkeys2 : ((h.entries ++ [(⟨q, 1, now, now⟩ : QueryEntry)]).map (·.query))
      = h.entries.map (·.query) ++ [q] := by
    rw [List.map_append]
    rfl
  have hnd2 : ((h.entries ++ [(⟨q, 1, now, now⟩ : QueryEntry)]).map (·.query)).Nodup := by
    rw [hkeys2, List.nodup_append]
    exact ⟨hnd, List.nodup_singleton q, by
      intro a ha hb
      simp only [List.mem_singleton] at hb
      exact hfresh (hb ▸ ha)⟩
  have hlen2 : (h.entries ++ [(⟨q, 1, now, now⟩ : QueryEntry)]).length = h.entries.length + 1 := by
    simp
  by_cases hc : h.entries.length + 1 ≤ h.max_entries
  · rw [cleanup_noop td now _ (by simpa [hlen2] using hc)]
    refine ⟨by simp; omega, hnd2, ?_⟩
    intro k hk
    rw [hkeys2, List.mem_append] at hk
    rcases hk with hk | hk
    · exact Or.inr hk
    · simp only [List.mem_singleton] at hk
      exact Or.inl hk
  · have hgt : ({ h with entries := h.entries ++ [(⟨q, 1, now, now⟩ : QueryEntry)] } :
        QueryHistory).max_entries
        < ({ h with entries := h.entries ++ [(⟨q, 1, now, now⟩ : QueryEntry)] } :
        QueryHistory).entries.length := by
      simp only [hlen2]
      omega
    obtain ⟨hl, hsub, _⟩ := cleanup_overflow td now
      { h with entries := h.entries ++ [(⟨q, 1, now, now⟩ : QueryEntry)] } hnd2 hgt
    refine ⟨by rw [hl]; simp; omega, ?_, ?_⟩
    · exact (hsub.map (·.query)).nodup hnd2
    · intro k hk
      have hk2 : k ∈ (h.entries ++ [(⟨q, 1, now, now⟩ : QueryEntry)]).map (·.query) := by
        obtain ⟨e, he, rfl⟩ := List.mem_map.mp hk
        exact List.mem_map.mpr ⟨e, hsub.mem he, rfl⟩
      rw [hkeys2, List.mem_append] at hk2
      rcases hk2 with hk2 | hk2
      · exact Or.inr hk2
      · simp only [List.mem_singleton] at hk2
        exact Or.inl hk2

lemma recordAll_min (td : Nat → Rat) (now : Nat) :
    ∀ (qs : List String) (h : QueryHistory),
      (h.entries.map (·.query)).Nodup →
      h.entries.length ≤ h.max_entries →
      qs.Nodup →
      (∀ x ∈ qs, isBlank x = false) →
      (∀ x ∈ qs, x ∉ h.entries.map (·.query)) →
      (recordAll td now h qs).entries.length
        = min (h.entries.length + qs.length) h.max_entries := by
  intro qs
  induction qs with
  | nil =>
    intro h hnd hle _ _ _
    simp only [recordAll, List.foldl_nil, List.length_nil, Nat.add_zero]
    omega
  | cons q qs ih =>
    intro h hnd hle hqsnd hblank hfresh
    rw [List.nodup_cons] at hqsnd
    obtain ⟨hqnot, hqsnd⟩ := hqsnd
    obtain ⟨hlen1, hnd1, hsub1⟩ := record_fresh_facts td now q h hnd hle
      (hblank q (by simp)) (hfresh q (by simp))
    have hmax1 := record_query_max_entries td now h q
    have hle1 : (h.record_query td now q).entries.length
        ≤ (h.record_query td now q).max_entries := by
      rw [hlen1, hmax1]
      omega
    have hfresh1 : ∀ x ∈ qs, x ∉ (h.record_query td now q).entries.map (·.query) := by
      intro x hx hmem
      rcases hsub1 x hmem with rfl | hmem2
      · exact hqnot hx
      · exact hfresh x (by simp [hx]) hmem2
    have hstep : recordAll td now h (q :: qs)
        = recordAll td now (h.record_query td now q) qs := rfl
    rw [hstep, ih (h.record_query td now q) hnd1 hle1 hqsnd
      (fun x hx => hblank x (by simp [hx])) hfresh1, hlen1, hmax1]
    simp only [List.length_cons]
    omega

lemma record_capacity (td : Nat → Rat) (now : Nat) (q : String)
    (h : QueryHistory)
    (hnd : (h.entries.map (·.query)).Nodup)
    (hle : h.entries.length ≤ h.max_entries) :
    (h.record_query td now q).entries.length ≤ h.max_entries := by
  by_cases hb : isBlank q = true
  · unfold QueryHistory.record_query
    rw [if_pos hb]
    exact hle
  · by_cases hany : h.entries.any (fun e => e.query == q) = true
    · unfold QueryHistory.record_query
      rw [if_neg hb, if_pos hany]
      rw [cleanup_noop td now _ (by simpa using hle)]
      simpa using hle
    · have hfresh : q ∉ h.entries.map (·.query) := by
        intro hc
        obtain ⟨e, he, heq⟩ := List.mem_map.mp hc
        have hf := List.any_eq_false.mp (Bool.not_eq_true _ |>.mp hany) e he
        simp only [beq_iff_eq] at hf
        exact hf heq
      have hb2 : isBlank q = false := Bool.not_eq_true _ |>.mp hb
      rw [record_query_fresh td now q h hb2 hfresh]
      by_cases hc : h.entries.length + 1 ≤ h.max_entries
      · rw [cleanup_noop td now _ (by simpa using hc)]
        simpa using hc
      · have hkeys2 : ((h.entries ++ [(⟨q, 1, now, now⟩ : QueryEntry)]).map (·.query))
            = h.entries.map (·.query) ++ [q] := by
          rw [List.map_append]
          rfl
        have hnd2 : ((h.entries ++ [(⟨q, 1, now, now⟩ : QueryEntry)]).map (·.query)).Nodup := by
          rw [hkeys2, List.nodup_append]
          exact ⟨hnd, List.nodup_singleton q, by
            intro a ha hbmem
            simp only [List.mem_singleton] at hbmem
            exact hfresh (hbmem ▸ ha)⟩
        obtain ⟨hl, _, _⟩ := cleanup_overflow td now
          { h with entries := h.entries ++ [(⟨q, 1, now, now⟩ : QueryEntry)] } hnd2
          (by simp; omega)
        rw [hl]

/-- C6: under the HashMap key invariant (pairwise distinct entry texts),
every record operation leaves at most max_entries entries; when the count
exceeds max_entries, cleanup trims it to exactly max_entries and every
evicted entry scores no higher than every surviving entry (the
lowest-scoring excess is evicted); and recording more than max_entries
distinct non-blank queries into a fresh history leaves exactly max_entries
entries. -/
theorem C6_capacity_and_eviction (td : Nat → Rat) (now : Nat)
    (h : QueryHistory) (q : String) (qs : List String) (M : Nat) :
    ((h.entries.map (·.query)).Nodup → h.entries.length ≤ h.max_entries →
      (h.record_query td now q).entries.length ≤ h.max_entries) ∧
    ((h.entries.map (·.query)).Nodup → h.max_entries < h.entries.length →
      (h.cleanup_old_entries td now).entries.length = h.max_entries ∧
      ∀ e ∈ h.entries, e ∉ (h.cleanup_old_entries td now).entries →
        ∀ s ∈ (h.cleanup_old_entries td now).entries,
          h.calculate_score td now e ≤ h.calculate_score td now s) ∧
    (qs.Nodup → (∀ x ∈ qs, isBlank x = false) → M < qs.length →
      (recordAll td now (QueryHistory.new M) qs).entries.length = M) := by
  refine ⟨?_, ?_, ?_⟩
  · intro hnd hle
    exact record_capacity td now q h hnd hle
  · intro hnd hgt
    obtain ⟨hl, _, hscore⟩ := cleanup_overflow td now h hnd hgt
    exact ⟨hl, hscore⟩
  · intro hqsnd hblank hgt
    have := recordAll_min td now qs (QueryHistory.new M)
      (by simp [QueryHistory.new]) (by simp [QueryHistory.new]) hqsnd hblank
      (by simp [QueryHistory.new])
    rw [this]
    simp only [QueryHistory.new]
    omega

/-- Witness for C6: recording three distinct queries into a fresh history of
capacity two leaves exactly two entries. -/
theorem C6_capacity_and_eviction_witness :
    (recordAll (fun _ => 1) 0 (QueryHistory.new 2) [".a", ".b", ".c"]).entries.length
      = 2 :=
  (C6_capacity_and_eviction (fun _ => 1) 0 (QueryHistory.new 2) ""
    [".a", ".b", ".c"] 2).2.2 (by decide) (by decide) (by decide)
